import Mathlib

/-!
Shallow embedding of the TUI CSV editor (`src/main.rs`).

The embedding models the application state (`App`), the key-event handler
(`handle_key`), grid growth (`ensure_cell_exists`), and the persistence
path (`save_csv`).  File I/O performed by the external CSV writer crate is
modelled by an oracle (`IOOracle`) that says which of the individual I/O
operations succeed; the content written on a successful save is returned
explicitly so that save behaviour can be stated as a pure function.
-/

/-- Logical key codes, mirroring the `crossterm` `KeyCode` variants that
`handle_key` in `src/main.rs` distinguishes; all others collapse to `other`. -/
inductive KeyCode where
  | enter
  | esc
  | backspace
  | char (c : Char)
  | left
  | right
  | up
  | down
  | other
deriving DecidableEq

/-- Key modifiers: the source only distinguishes "no modifiers", "exactly
shift", and anything else (`key.modifiers.is_empty() || key.modifiers == SHIFT`). -/
inductive KeyModifiers where
  | none
  | shift
  | other
deriving DecidableEq

/-- A key event: code plus modifiers, as consumed by `handle_key`. -/
structure KeyEvent where
  code : KeyCode
  modifiers : KeyModifiers
deriving DecidableEq

/-- The application state, mirroring `struct App` in `src/main.rs`
(the fixed `file_path` is omitted: there is a single file identity for the
process lifetime, so the disk is modelled as the single written content). -/
structure App where
  data : List (List String)
  row : Nat
  col : Nat
  editing : Bool
  editor_buf : String
  dirty : Bool
deriving DecidableEq

/-- Rust `Vec::resize(n, v)`: truncate to `n` elements, or pad with `v`. -/
def listResize {α : Type} (l : List α) (n : Nat) (v : α) : List α :=
  if n ≤ l.length then l.take n else l ++ List.replicate (n - l.length) v

/-- `App::max_cols`: `self.data.iter().map(|r| r.len()).max().unwrap_or(0)`. -/
def max_cols (data : List (List String)) : Nat :=
  data.foldr (fun r acc => Nat.max r.length acc) 0

/-- First statement of `App::ensure_cell_exists`:
`if r >= self.data.len() { self.data.resize(r + 1, Vec::new()); }`. -/
def ensureRows (data : List (List String)) (r : Nat) : List (List String) :=
  if data.length ≤ r then listResize data (r + 1) [] else data

/-- Second statement of `App::ensure_cell_exists`:
`if c >= self.data[r].len() { self.data[r].resize(c + 1, String::new()); }`. -/
def ensureCols (data : List (List String)) (r c : Nat) : List (List String) :=
  if (data.getD r []).length ≤ c then data.set r (listResize (data.getD r []) (c + 1) "")
  else data

/-- `App::ensure_cell_exists(r, c)`: grow the row vector to `r + 1` rows if
needed, then grow row `r` to `c + 1` cells if needed (`Vec::resize`). -/
def ensure_cell_exists (app : App) (r c : Nat) : App :=
  { app with data := ensureCols (ensureRows app.data r) r c }

/-- Cell access with the empty-string default (the Grid Store `get`; also how
the renderer reads cells: `row.get(c_idx).unwrap_or("")`). -/
def getCell (data : List (List String)) (r c : Nat) : String :=
  (data.getD r []).getD c ""

/-- Outcome of the abstract I/O operations under a save: which step failed. -/
inductive SaveError where
  | createFailed
  | writeFailed (i : Nat)
  | flushFailed
deriving DecidableEq

/-- Modelled from the spec: the I/O environment of the external CSV writer
crate (whose code is outside `src/`).  It records whether opening the file
for writing succeeds, whether the `i`-th record write succeeds, and whether
the final flush succeeds (§4.3: save "fails with a Save error on any I/O or
encoding failure"). -/
structure IOOracle where
  createOk : Bool
  writeOk : Nat → Bool
  flushOk : Bool

/-- Modelled from the spec: the external writer's `write_record` — one record
is emitted as its fields in order, delimiter-separated, as-is with no padding,
terminated by a record separator (§4.3, §6). -/
def write_record (row : List String) : String :=
  String.intercalate "," row ++ "\n"

/-- The record-writing loop of `save_csv` (`for row in data { wtr.write_record(row)?; }`),
accumulating the content written so far; `i` is the index of the next record. -/
def write_records (io : IOOracle) (i : Nat) (rows : List (List String)) : Except SaveError String :=
  match rows with
  | [] => .ok ""
  | row :: rest =>
    if io.writeOk i then
      match write_records io (i + 1) rest with
      | .ok s => .ok (write_record row ++ s)
      | .error e => .error e
    else .error (.writeFailed i)

/-- `save_csv(path, data)` from `src/main.rs`: create the file, write every
row in order, flush.  On success the full written content is returned. -/
def save_csv (io : IOOracle) (data : List (List String)) : Except SaveError String :=
  if io.createOk then
    match write_records io 0 data with
    | .ok s => if io.flushOk then .ok s else .error .flushFailed
    | .error e => .error e
  else .error .createFailed

/-- View of an `Except` value as a sum, used to decide equality of results. -/
def exceptToSum {ε α : Type} : Except ε α → ε ⊕ α
  | .error e => Sum.inl e
  | .ok a => Sum.inr a

instance {ε α : Type} [DecidableEq ε] [DecidableEq α] : DecidableEq (Except ε α) :=
  fun a b =>
    decidable_of_iff (exceptToSum a = exceptToSum b) (by cases a <;> cases b <;> simp [exceptToSum])

/-- Result of one `handle_key` step: the new state, whether the event loop
should exit (`Ok(true)` in the source), and the file content written if this
step performed a successful save. -/
structure StepResult where
  app : App
  exit : Bool
  written : Option String
deriving DecidableEq

/-- `handle_key(app, key)` from `src/main.rs`.  A failed save propagates as an
error (`?` in the source); the error carries the state at the moment of
propagation (no field of `app` is mutated before the save call in those arms). -/
def handle_key (io : IOOracle) (app : App) (key : KeyEvent) :
    Except (SaveError × App) StepResult :=
  if app.editing then
    match key.code with
    | .enter =>
      let app1 := ensure_cell_exists app app.row app.col
      .ok ⟨{ app1 with
              data := app1.data.set app1.row ((app1.data.getD app1.row []).set app1.col app1.editor_buf),
              editor_buf := "", editing := false, dirty := true }, false, none⟩
    | .esc => .ok ⟨{ app with editor_buf := "", editing := false }, false, none⟩
    | .backspace => .ok ⟨{ app with editor_buf := app.editor_buf.dropRight 1 }, false, none⟩
    | .char c =>
      if key.modifiers = KeyModifiers.none ∨ key.modifiers = KeyModifiers.shift then
        .ok ⟨{ app with editor_buf := app.editor_buf.push c }, false, none⟩
      else
        .ok ⟨app, false, none⟩
    | _ => .ok ⟨app, false, none⟩
  else
    match key.code with
    | .char c =>
      if c = 'q' then
        -- Auto-save on quit if dirty
        if app.dirty then
          match save_csv io app.data with
          | .ok out => .ok ⟨app, true, some out⟩
          | .error e => .error (e, app)
        else
          .ok ⟨app, true, none⟩
      else if c = 'w' then
        match save_csv io app.data with
        | .ok out => .ok ⟨{ app with dirty := false }, false, some out⟩
        | .error e => .error (e, app)
      else if c = 'e' then
        let app1 := ensure_cell_exists app app.row app.col
        .ok ⟨{ app1 with editor_buf := getCell app1.data app1.row app1.col, editing := true },
             false, none⟩
      else
        .ok ⟨app, false, none⟩
    | .left =>
      .ok ⟨if 0 < app.col then { app with col := app.col - 1 } else app, false, none⟩
    | .right =>
      .ok ⟨if app.col + 1 < max_cols app.data then { app with col := app.col + 1 } else app,
           false, none⟩
    | .up =>
      if 0 < app.row then
        .ok ⟨{ app with
                row := app.row - 1,
                col := Nat.min app.col ((app.data.getD (app.row - 1) []).length - 1) }, false, none⟩
      else
        .ok ⟨app, false, none⟩
    | .down =>
      if app.row + 1 < app.data.length then
        .ok ⟨{ app with
                row := app.row + 1,
                col := Nat.min app.col ((app.data.getD (app.row + 1) []).length - 1) }, false, none⟩
      else
        .ok ⟨app, false, none⟩
    | _ => .ok ⟨app, false, none⟩

/-- The initial state built in `main` after a successful load: cursor (0,0),
navigating mode, empty buffer, clean. -/
def initApp (data : List (List String)) : App :=
  { data := data, row := 0, col := 0, editing := false, editor_buf := "", dirty := false }

/-- The event loop's key-dispatch behaviour over a sequence of key events
(`loop { ... handle_key ... if exit break }`): stop on exit request, propagate
the first save error. -/
def run_keys (io : IOOracle) (app : App) (ks : List KeyEvent) :
    Except (SaveError × App) (App × Bool) :=
  match ks with
  | [] => .ok (app, false)
  | k :: rest =>
    match handle_key io app k with
    | .error e => .error e
    | .ok r => if r.exit then .ok (r.app, true) else run_keys io r.app rest

/-- An I/O environment in which every operation succeeds. -/
def ioAllOk : IOOracle := ⟨true, fun _ => true, true⟩

/-- A key event with no modifiers, as produced by the tests' `key` helper. -/
def plainKey (c : KeyCode) : KeyEvent := ⟨c, KeyModifiers.none⟩

/-- Keys that, while in editing mode, at most mutate the edit buffer:
printable characters (any modifiers) and backspace. -/
def is_buf_mutation (k : KeyEvent) : Bool :=
  match k.code with
  | .char _ => true
  | .backspace => true
  | _ => false

/-- The cursor-bounds invariant stated by the spec:
`0 ≤ row < max(1, height())` and `0 ≤ col < max(1, width())`. -/
def cursorInv (app : App) : Prop :=
  app.row < Nat.max 1 app.data.length ∧ app.col < Nat.max 1 (max_cols app.data)

/-- The edit-buffer invariant: outside editing mode the buffer is empty. -/
def bufInv (app : App) : Prop := app.editing = false → app.editor_buf = ""

/-- The dirty state reached from `"a,b\nc,d\n"` after editing cell (0,0) to
`"aX"` (the state of the spec's Quit-saves-when-dirty scenario). -/
def appQ : App :=
  { data := [["aX", "b"], ["c", "d"]], row := 0, col := 0,
    editing := false, editor_buf := "", dirty := true }

/-- A one-row grid with the cursor addressing a cell one row beyond the grid. -/
def appCE : App :=
  { data := [["a"]], row := 1, col := 0, editing := false, editor_buf := "", dirty := false }

/-- An I/O environment in which opening the file for writing fails. -/
def ioNoCreate : IOOracle := ⟨false, fun _ => true, true⟩

/-- A jagged grid: rows of lengths 3, 1 and 0. -/
def dJagged : List (List String) := [["a", "b", "c"], ["d"], []]

/-- A 2x(2,1) jagged grid with the cursor at (0,1): the last column of the
widest row. -/
def appNav1 : App :=
  { data := [["a", "b"], ["c"]], row := 0, col := 1,
    editing := false, editor_buf := "", dirty := false }

/-- The same grid with the cursor at (1,0): the last row. -/
def appNav2 : App :=
  { data := [["a", "b"], ["c"]], row := 1, col := 0,
    editing := false, editor_buf := "", dirty := false }

/-- A grid whose first row has zero cells, cursor on the second row. -/
def appNav3 : App :=
  { data := [[], ["a"]], row := 1, col := 0,
    editing := false, editor_buf := "", dirty := false }

/-! ### List helper lemmas -/

theorem listGetD_set_ne {α : Type} (l : List α) (i j : Nat) (v d : α) (h : i ≠ j) :
    (l.set i v).getD j d = l.getD j d := by
  induction l generalizing i j with
  | nil => simp
  | cons a t ih =>
    cases i with
    | zero =>
      cases j with
      | zero => exact absurd rfl h
      | succ j => simp
    | succ i =>
      cases j with
      | zero => simp
      | succ j => simpa using ih i j (fun hh => h (by rw [hh]))

theorem listGetD_set_self {α : Type} (l : List α) (i : Nat) (v d : α) (h : i < l.length) :
    (l.set i v).getD i d = v := by
  induction l generalizing i with
  | nil => simp at h
  | cons a t ih =>
    cases i with
    | zero => simp
    | succ i => simpa using ih i (by simpa using h)

theorem listGetD_replicate {α : Type} (k j : Nat) (d : α) :
    (List.replicate k d).getD j d = d := by
  induction k generalizing j with
  | zero => simp
  | succ k ih =>
    cases j with
    | zero => simp
    | succ j =>
      rw [List.replicate_succ, List.getD_cons_succ]
      exact ih j

theorem listGetD_append_replicate {α : Type} (l : List α) (k j : Nat) (d : α) :
    (l ++ List.replicate k d).getD j d = l.getD j d := by
  by_cases h : j < l.length
  · exact List.getD_append l _ d j h
  · rw [List.getD_append_right l _ d j (Nat.le_of_not_lt h),
      List.getD_eq_default l d (Nat.le_of_not_lt h), listGetD_replicate]

theorem max_cols_cons (r : List String) (t : List (List String)) :
    max_cols (r :: t) = Nat.max r.length (max_cols t) := rfl

theorem length_getD_le_max_cols (data : List (List String)) (i : Nat) (h : i < data.length) :
    (data.getD i []).length ≤ max_cols data := by
  induction data generalizing i with
  | nil => simp at h
  | cons r t ih =>
    cases i with
    | zero =>
      rw [List.getD_cons_zero, max_cols_cons]
      exact Nat.le_max_left r.length (max_cols t)
    | succ i =>
      have hi := ih i (by simp at h; omega)
      rw [List.getD_cons_succ, max_cols_cons]
      exact Nat.le_trans hi (Nat.le_max_right r.length (max_cols t))

theorem max_cols_set (data : List (List String)) (r : Nat) (l : List String)
    (hl : l.length = (data.getD r []).length) :
    max_cols (data.set r l) = max_cols data := by
  induction data generalizing r with
  | nil => simp
  | cons a t ih =>
    cases r with
    | zero =>
      simp only [List.getD_cons_zero] at hl
      simp [max_cols_cons, hl]
    | succ r =>
      simp only [List.getD_cons_succ] at hl
      simp [max_cols_cons, ih r hl]

/-! ### `ensure_cell_exists` characterization -/

theorem listResize_of_lt {α : Type} (l : List α) (n : Nat) (v : α) (h : l.length < n) :
    listResize l n v = l ++ List.replicate (n - l.length) v := by
  unfold listResize
  rw [if_neg (by omega)]

theorem ensureRows_length (data : List (List String)) (r : Nat) :
    (ensureRows data r).length = if data.length ≤ r then r + 1 else data.length := by
  unfold ensureRows
  by_cases h1 : data.length ≤ r
  · rw [if_pos h1, if_pos h1, listResize_of_lt _ _ _ (by omega)]
    simp only [List.length_append, List.length_replicate]
    omega
  · rw [if_neg h1, if_neg h1]

theorem ensureRows_getD (data : List (List String)) (r i : Nat) :
    (ensureRows data r).getD i [] = data.getD i [] := by
  unfold ensureRows
  by_cases h1 : data.length ≤ r
  · rw [if_pos h1, listResize_of_lt _ _ _ (by omega), listGetD_append_replicate]
  · rw [if_neg h1]

theorem ensureCols_length (data : List (List String)) (r c : Nat) :
    (ensureCols data r c).length = data.length := by
  unfold ensureCols
  by_cases h2 : (data.getD r []).length ≤ c
  · rw [if_pos h2, List.length_set]
  · rw [if_neg h2]

theorem ensureCols_getD_ne (data : List (List String)) (r c i : Nat) (h : i ≠ r) :
    (ensureCols data r c).getD i [] = data.getD i [] := by
  unfold ensureCols
  by_cases h2 : (data.getD r []).length ≤ c
  · rw [if_pos h2, listGetD_set_ne _ _ _ _ _ (fun hh => h hh.symm)]
  · rw [if_neg h2]

theorem ensureCols_getD_self (data : List (List String)) (r c : Nat) (hr : r < data.length) :
    (ensureCols data r c).getD r [] =
      if (data.getD r []).length ≤ c then
        data.getD r [] ++ List.replicate (c + 1 - (data.getD r []).length) ""
      else data.getD r [] := by
  unfold ensureCols
  by_cases h2 : (data.getD r []).length ≤ c
  · rw [if_pos h2, if_pos h2, listGetD_set_self _ _ _ _ hr, listResize_of_lt _ _ _ (by omega)]
  · rw [if_neg h2, if_neg h2]

theorem ensure_fields (app : App) (r c : Nat) :
    (ensure_cell_exists app r c).row = app.row ∧
    (ensure_cell_exists app r c).col = app.col ∧
    (ensure_cell_exists app r c).editing = app.editing ∧
    (ensure_cell_exists app r c).editor_buf = app.editor_buf ∧
    (ensure_cell_exists app r c).dirty = app.dirty :=
  ⟨rfl, rfl, rfl, rfl, rfl⟩

theorem ensure_length (app : App) (r c : Nat) :
    (ensure_cell_exists app r c).data.length =
      if app.data.length ≤ r then r + 1 else app.data.length := by
  show (ensureCols (ensureRows app.data r) r c).length = _
  rw [ensureCols_length, ensureRows_length]

theorem ensure_getD_ne (app : App) (r c i : Nat) (h : i ≠ r) :
    (ensure_cell_exists app r c).data.getD i [] = app.data.getD i [] := by
  show (ensureCols (ensureRows app.data r) r c).getD i [] = _
  rw [ensureCols_getD_ne _ _ _ _ h, ensureRows_getD]

theorem ensure_getD_self (app : App) (r c : Nat) :
    (ensure_cell_exists app r c).data.getD r [] =
      if (app.data.getD r []).length ≤ c then
        app.data.getD r [] ++ List.replicate (c + 1 - (app.data.getD r []).length) ""
      else app.data.getD r [] := by
  show (ensureCols (ensureRows app.data r) r c).getD r [] = _
  have hr : r < (ensureRows app.data r).length := by
    rw [ensureRows_length]
    split <;> omega
  rw [ensureCols_getD_self _ _ _ hr, ensureRows_getD]

theorem ensure_r_lt (app : App) (r c : Nat) :
    r < (ensure_cell_exists app r c).data.length := by
  rw [ensure_length]
  split <;> omega

theorem ensure_c_lt (app : App) (r c : Nat) :
    c < ((ensure_cell_exists app r c).data.getD r []).length := by
  rw [ensure_getD_self]
  split
  · simp only [List.length_append, List.length_replicate]
    omega
  · omega

theorem ensure_getCell (app : App) (r c i j : Nat) :
    getCell (ensure_cell_exists app r c).data i j = getCell app.data i j := by
  unfold getCell
  by_cases h : i = r
  · subst h
    rw [ensure_getD_self]
    split
    · rw [listGetD_append_replicate]
    · rfl
  · rw [ensure_getD_ne _ _ _ _ h]

theorem ensure_data_of_lt (app : App) (r c : Nat)
    (hr : r < app.data.length) (hc : c < (app.data.getD r []).length) :
    (ensure_cell_exists app r c).data = app.data := by
  show ensureCols (ensureRows app.data r) r c = app.data
  unfold ensureRows
  rw [if_neg (by omega)]
  unfold ensureCols
  rw [if_neg (by omega)]

/-! ### Equation lemmas for `handle_key`, one per source arm -/

theorem handle_key_edit_enter (io : IOOracle) (app : App) (m : KeyModifiers)
    (he : app.editing = true) :
    handle_key io app ⟨.enter, m⟩ =
      .ok ⟨{ ensure_cell_exists app app.row app.col with
              data := (ensure_cell_exists app app.row app.col).data.set app.row
                (((ensure_cell_exists app app.row app.col).data.getD app.row []).set app.col
                  app.editor_buf),
              editor_buf := "", editing := false, dirty := true }, false, none⟩ := by
  unfold handle_key
  rw [if_pos he]
  rfl

theorem handle_key_edit_esc (io : IOOracle) (app : App) (m : KeyModifiers)
    (he : app.editing = true) :
    handle_key io app ⟨.esc, m⟩ =
      .ok ⟨{ app with editor_buf := "", editing := false }, false, none⟩ := by
  unfold handle_key
  rw [if_pos he]

theorem handle_key_edit_backspace (io : IOOracle) (app : App) (m : KeyModifiers)
    (he : app.editing = true) :
    handle_key io app ⟨.backspace, m⟩ =
      .ok ⟨{ app with editor_buf := app.editor_buf.dropRight 1 }, false, none⟩ := by
  unfold handle_key
  rw [if_pos he]

theorem handle_key_edit_char (io : IOOracle) (app : App) (c : Char) (m : KeyModifiers)
    (he : app.editing = true) :
    handle_key io app ⟨.char c, m⟩ =
      if m = KeyModifiers.none ∨ m = KeyModifiers.shift then
        .ok ⟨{ app with editor_buf := app.editor_buf.push c }, false, none⟩
      else .ok ⟨app, false, none⟩ := by
  unfold handle_key
  rw [if_pos he]

theorem handle_key_edit_noop (io : IOOracle) (app : App) (k : KeyEvent)
    (he : app.editing = true)
    (hk : k.code = .left ∨ k.code = .right ∨ k.code = .up ∨ k.code = .down ∨ k.code = .other) :
    handle_key io app k = .ok ⟨app, false, none⟩ := by
  obtain ⟨code, m⟩ := k
  unfold handle_key
  rw [if_pos he]
  simp only at hk
  rcases hk with h | h | h | h | h <;> rw [h]

theorem handle_key_nav_q (io : IOOracle) (app : App) (m : KeyModifiers)
    (he : app.editing = false) :
    handle_key io app ⟨.char 'q', m⟩ =
      if app.dirty then
        match save_csv io app.data with
        | .ok out => .ok ⟨app, true, some out⟩
        | .error e => .error (e, app)
      else .ok ⟨app, true, none⟩ := by
  unfold handle_key
  rw [if_neg (by simp [he])]
  rfl

theorem handle_key_nav_w (io : IOOracle) (app : App) (m : KeyModifiers)
    (he : app.editing = false) :
    handle_key io app ⟨.char 'w', m⟩ =
      match save_csv io app.data with
      | .ok out => .ok ⟨{ app with dirty := false }, false, some out⟩
      | .error e => .error (e, app) := by
  unfold handle_key
  rw [if_neg (by simp [he])]
  rfl

theorem handle_key_nav_e (io : IOOracle) (app : App) (m : KeyModifiers)
    (he : app.editing = false) :
    handle_key io app ⟨.char 'e', m⟩ =
      .ok ⟨{ ensure_cell_exists app app.row app.col with
              editor_buf := getCell (ensure_cell_exists app app.row app.col).data app.row app.col,
              editing := true }, false, none⟩ := by
  unfold handle_key
  rw [if_neg (by simp [he])]
  rfl

theorem handle_key_nav_char_other (io : IOOracle) (app : App) (c : Char) (m : KeyModifiers)
    (he : app.editing = false) (hq : c ≠ 'q') (hw : c ≠ 'w') (hc : c ≠ 'e') :
    handle_key io app ⟨.char c, m⟩ = .ok ⟨app, false, none⟩ := by
  unfold handle_key
  rw [if_neg (by simp [he])]
  simp only [if_neg hq, if_neg hw, if_neg hc]

theorem handle_key_nav_left (io : IOOracle) (app : App) (m : KeyModifiers)
    (he : app.editing = false) :
    handle_key io app ⟨.left, m⟩ =
      .ok ⟨if 0 < app.col then { app with col := app.col - 1 } else app, false, none⟩ := by
  unfold handle_key
  rw [if_neg (by simp [he])]

theorem handle_key_nav_right (io : IOOracle) (app : App) (m : KeyModifiers)
    (he : app.editing = false) :
    handle_key io app ⟨.right, m⟩ =
      .ok ⟨if app.col + 1 < max_cols app.data then { app with col := app.col + 1 } else app,
           false, none⟩ := by
  unfold handle_key
  rw [if_neg (by simp [he])]

theorem handle_key_nav_up (io : IOOracle) (app : App) (m : KeyModifiers)
    (he : app.editing = false) :
    handle_key io app ⟨.up, m⟩ =
      if 0 < app.row then
        .ok ⟨{ app with
                row := app.row - 1,
                col := Nat.min app.col ((app.data.getD (app.row - 1) []).length - 1) },
             false, none⟩
      else .ok ⟨app, false, none⟩ := by
  unfold handle_key
  rw [if_neg (by simp [he])]

theorem handle_key_nav_down (io : IOOracle) (app : App) (m : KeyModifiers)
    (he : app.editing = false) :
    handle_key io app ⟨.down, m⟩ =
      if app.row + 1 < app.data.length then
        .ok ⟨{ app with
                row := app.row + 1,
                col := Nat.min app.col ((app.data.getD (app.row + 1) []).length - 1) },
             false, none⟩
      else .ok ⟨app, false, none⟩ := by
  unfold handle_key
  rw [if_neg (by simp [he])]

theorem handle_key_nav_noop (io : IOOracle) (app : App) (k : KeyEvent)
    (he : app.editing = false)
    (hk : k.code = .enter ∨ k.code = .esc ∨ k.code = .backspace ∨ k.code = .other) :
    handle_key io app k = .ok ⟨app, false, none⟩ := by
  obtain ⟨code, m⟩ := k
  unfold handle_key
  rw [if_neg (by simp [he])]
  simp only at hk
  rcases hk with h | h | h | h <;> rw [h]

/-! ### Invariant machinery over the event loop -/

theorem bool_tf {b : Bool} (h1 : b = true) (h2 : b = false) : False := by
  rw [h1] at h2
  cases h2

theorem lt_max_one_iff (a b : Nat) : a < Nat.max 1 b ↔ a = 0 ∨ a < b := by
  unfold Nat.max
  rcases Nat.le_total 1 b with h | h
  · rw [Nat.max_eq_right h]
    omega
  · rw [Nat.max_eq_left h]
    omega

theorem run_keys_nil (io : IOOracle) (app : App) : run_keys io app [] = .ok (app, false) := rfl

theorem run_keys_cons_ok (io : IOOracle) (app : App) (k : KeyEvent) (rest : List KeyEvent)
    (r : StepResult) (hk : handle_key io app k = .ok r) :
    run_keys io app (k :: rest) =
      if r.exit = true then .ok (r.app, true) else run_keys io r.app rest := by
  conv_lhs => unfold run_keys
  rw [hk]

theorem run_keys_cons_error (io : IOOracle) (app : App) (k : KeyEvent) (rest : List KeyEvent)
    (e : SaveError × App) (hk : handle_key io app k = .error e) :
    run_keys io app (k :: rest) = .error e := by
  unfold run_keys
  rw [hk]

theorem run_keys_preserves (P : App → Prop)
    (hstep : ∀ io app k res, P app → handle_key io app k = .ok res → P res.app)
    (io : IOOracle) (ks : List KeyEvent) (app app' : App) (ex : Bool)
    (hP : P app) (h : run_keys io app ks = .ok (app', ex)) : P app' := by
  induction ks generalizing app with
  | nil =>
    rw [run_keys_nil] at h
    cases h
    exact hP
  | cons k rest ih =>
    cases hk : handle_key io app k with
    | error e =>
      rw [run_keys_cons_error io app k rest e hk] at h
      cases h
    | ok r =>
      rw [run_keys_cons_ok io app k rest r hk] at h
      by_cases hex : r.exit = true
      · rw [if_pos hex] at h
        cases h
        exact hstep io app k r hP hk
      · rw [if_neg hex] at h
        exact ih r.app (hstep io app k r hP hk) h

theorem handle_key_cursorInv (io : IOOracle) (app : App) (k : KeyEvent) (res : StepResult)
    (hP : cursorInv app) (h : handle_key io app k = .ok res) : cursorInv res.app := by
  obtain ⟨code, m⟩ := k
  obtain ⟨h1, h2⟩ := hP
  cases he : app.editing with
  | true =>
    cases code with
    | enter =>
      rw [handle_key_edit_enter io app m he] at h
      cases h
      constructor
      · show app.row <
          Nat.max 1 ((ensure_cell_exists app app.row app.col).data.set app.row _).length
        rw [List.length_set, lt_max_one_iff]
        exact Or.inr (ensure_r_lt app app.row app.col)
      · show app.col <
          Nat.max 1 (max_cols ((ensure_cell_exists app app.row app.col).data.set app.row _))
        rw [max_cols_set _ _ _ (by rw [List.length_set]), lt_max_one_iff]
        refine Or.inr (Nat.lt_of_lt_of_le (ensure_c_lt app app.row app.col) ?_)
        exact length_getD_le_max_cols _ _ (ensure_r_lt app app.row app.col)
    | esc =>
      rw [handle_key_edit_esc io app m he] at h
      cases h
      exact ⟨h1, h2⟩
    | backspace =>
      rw [handle_key_edit_backspace io app m he] at h
      cases h
      exact ⟨h1, h2⟩
    | char c =>
      rw [handle_key_edit_char io app c m he] at h
      split at h <;> cases h <;> exact ⟨h1, h2⟩
    | left =>
      rw [handle_key_edit_noop io app _ he (Or.inl rfl)] at h
      cases h
      exact ⟨h1, h2⟩
    | right =>
      rw [handle_key_edit_noop io app _ he (Or.inr (Or.inl rfl))] at h
      cases h
      exact ⟨h1, h2⟩
    | up =>
      rw [handle_key_edit_noop io app _ he (Or.inr (Or.inr (Or.inl rfl)))] at h
      cases h
      exact ⟨h1, h2⟩
    | down =>
      rw [handle_key_edit_noop io app _ he (Or.inr (Or.inr (Or.inr (Or.inl rfl))))] at h
      cases h
      exact ⟨h1, h2⟩
    | other =>
      rw [handle_key_edit_noop io app _ he (Or.inr (Or.inr (Or.inr (Or.inr rfl))))] at h
      cases h
      exact ⟨h1, h2⟩
  | false =>
    cases code with
    | char c =>
      by_cases hq : c = 'q'
      · subst hq
        rw [handle_key_nav_q io app m he] at h
        split at h
        · cases hs : save_csv io app.data with
          | ok out =>
            rw [hs] at h
            cases h
            exact ⟨h1, h2⟩
          | error e =>
            rw [hs] at h
            cases h
        · cases h
          exact ⟨h1, h2⟩
      · by_cases hw : c = 'w'
        · subst hw
          rw [handle_key_nav_w io app m he] at h
          cases hs : save_csv io app.data with
          | ok out =>
            rw [hs] at h
            cases h
            exact ⟨h1, h2⟩
          | error e =>
            rw [hs] at h
            cases h
        · by_cases hc : c = 'e'
          · subst hc
            rw [handle_key_nav_e io app m he] at h
            cases h
            constructor
            · show app.row < Nat.max 1 (ensure_cell_exists app app.row app.col).data.length
              rw [lt_max_one_iff]
              exact Or.inr (ensure_r_lt app app.row app.col)
            · show app.col < Nat.max 1 (max_cols (ensure_cell_exists app app.row app.col).data)
              rw [lt_max_one_iff]
              refine Or.inr (Nat.lt_of_lt_of_le (ensure_c_lt app app.row app.col) ?_)
              exact length_getD_le_max_cols _ _ (ensure_r_lt app app.row app.col)
          · rw [handle_key_nav_char_other io app c m he hq hw hc] at h
            cases h
            exact ⟨h1, h2⟩
    | left =>
      rw [handle_key_nav_left io app m he] at h
      cases h
      split
      · exact ⟨h1, Nat.lt_of_le_of_lt (Nat.sub_le _ _) h2⟩
      · exact ⟨h1, h2⟩
    | right =>
      rw [handle_key_nav_right io app m he] at h
      cases h
      split
      · next hlt => exact ⟨h1, (lt_max_one_iff _ _).mpr (Or.inr hlt)⟩
      · exact ⟨h1, h2⟩
    | up =>
      rw [handle_key_nav_up io app m he] at h
      split at h
      · cases h
        exact ⟨Nat.lt_of_le_of_lt (Nat.sub_le _ _) h1,
          Nat.lt_of_le_of_lt (Nat.min_le_left _ _) h2⟩
      · cases h
        exact ⟨h1, h2⟩
    | down =>
      rw [handle_key_nav_down io app m he] at h
      split at h
      · next hlt =>
        cases h
        exact ⟨(lt_max_one_iff _ _).mpr (Or.inr hlt),
          Nat.lt_of_le_of_lt (Nat.min_le_left _ _) h2⟩
      · cases h
        exact ⟨h1, h2⟩
    | enter =>
      rw [handle_key_nav_noop io app _ he (Or.inl rfl)] at h
      cases h
      exact ⟨h1, h2⟩
    | esc =>
      rw [handle_key_nav_noop io app _ he (Or.inr (Or.inl rfl))] at h
      cases h
      exact ⟨h1, h2⟩
    | backspace =>
      rw [handle_key_nav_noop io app _ he (Or.inr (Or.inr (Or.inl rfl)))] at h
      cases h
      exact ⟨h1, h2⟩
    | other =>
      rw [handle_key_nav_noop io app _ he (Or.inr (Or.inr (Or.inr rfl)))] at h
      cases h
      exact ⟨h1, h2⟩

theorem handle_key_bufInv (io : IOOracle) (app : App) (k : KeyEvent) (res : StepResult)
    (hP : bufInv app) (h : handle_key io app k = .ok res) : bufInv res.app := by
  obtain ⟨code, m⟩ := k
  cases he : app.editing with
  | true =>
    cases code with
    | enter =>
      rw [handle_key_edit_enter io app m he] at h
      cases h
      exact fun _ => rfl
    | esc =>
      rw [handle_key_edit_esc io app m he] at h
      cases h
      exact fun _ => rfl
    | backspace =>
      rw [handle_key_edit_backspace io app m he] at h
      cases h
      exact fun hf => (bool_tf he hf).elim
    | char c =>
      rw [handle_key_edit_char io app c m he] at h
      split at h <;> cases h <;> exact fun hf => (bool_tf he hf).elim
    | left =>
      rw [handle_key_edit_noop io app _ he (Or.inl rfl)] at h
      cases h
      exact hP
    | right =>
      rw [handle_key_edit_noop io app _ he (Or.inr (Or.inl rfl))] at h
      cases h
      exact hP
    | up =>
      rw [handle_key_edit_noop io app _ he (Or.inr (Or.inr (Or.inl rfl)))] at h
      cases h
      exact hP
    | down =>
      rw [handle_key_edit_noop io app _ he (Or.inr (Or.inr (Or.inr (Or.inl rfl))))] at h
      cases h
      exact hP
    | other =>
      rw [handle_key_edit_noop io app _ he (Or.inr (Or.inr (Or.inr (Or.inr rfl))))] at h
      cases h
      exact hP
  | false =>
    cases code with
    | char c =>
      by_cases hq : c = 'q'
      · subst hq
        rw [handle_key_nav_q io app m he] at h
        split at h
        · cases hs : save_csv io app.data with
          | ok out =>
            rw [hs] at h
            cases h
            exact hP
          | error e =>
            rw [hs] at h
            cases h
        · cases h
          exact hP
      · by_cases hw : c = 'w'
        · subst hw
          rw [handle_key_nav_w io app m he] at h
          cases hs : save_csv io app.data with
          | ok out =>
            rw [hs] at h
            cases h
            exact fun _ => hP he
          | error e =>
            rw [hs] at h
            cases h
        · by_cases hc : c = 'e'
          · subst hc
            rw [handle_key_nav_e io app m he] at h
            cases h
            exact fun hf => Bool.noConfusion hf
          · rw [handle_key_nav_char_other io app c m he hq hw hc] at h
            cases h
            exact hP
    | left =>
      rw [handle_key_nav_left io app m he] at h
      cases h
      split
      · exact fun _ => hP he
      · exact hP
    | right =>
      rw [handle_key_nav_right io app m he] at h
      cases h
      split
      · exact fun _ => hP he
      · exact hP
    | up =>
      rw [handle_key_nav_up io app m he] at h
      split at h <;> cases h
      · exact fun _ => hP he
      · exact hP
    | down =>
      rw [handle_key_nav_down io app m he] at h
      split at h <;> cases h
      · exact fun _ => hP he
      · exact hP
    | enter =>
      rw [handle_key_nav_noop io app _ he (Or.inl rfl)] at h
      cases h
      exact hP
    | esc =>
      rw [handle_key_nav_noop io app _ he (Or.inr (Or.inl rfl))] at h
      cases h
      exact hP
    | backspace =>
      rw [handle_key_nav_noop io app _ he (Or.inr (Or.inr (Or.inl rfl)))] at h
      cases h
      exact hP
    | other =>
      rw [handle_key_nav_noop io app _ he (Or.inr (Or.inr (Or.inr rfl)))] at h
      cases h
      exact hP

/-! ### Editing-mode buffer mutations -/

theorem handle_key_mutation (io : IOOracle) (app : App) (k : KeyEvent)
    (he : app.editing = true) (hm : is_buf_mutation k = true) :
    ∃ b, handle_key io app k = .ok ⟨{ app with editor_buf := b }, false, none⟩ := by
  obtain ⟨code, m⟩ := k
  cases code with
  | char c =>
    rw [handle_key_edit_char io app c m he]
    by_cases hmod : m = KeyModifiers.none ∨ m = KeyModifiers.shift
    · exact ⟨app.editor_buf.push c, by rw [if_pos hmod]⟩
    · exact ⟨app.editor_buf, by rw [if_neg hmod]⟩
  | backspace =>
    rw [handle_key_edit_backspace io app m he]
    exact ⟨app.editor_buf.dropRight 1, rfl⟩
  | enter => simp [is_buf_mutation] at hm
  | esc => simp [is_buf_mutation] at hm
  | left => simp [is_buf_mutation] at hm
  | right => simp [is_buf_mutation] at hm
  | up => simp [is_buf_mutation] at hm
  | down => simp [is_buf_mutation] at hm
  | other => simp [is_buf_mutation] at hm

theorem run_keys_mutations_esc (io : IOOracle) (app : App) (ks : List KeyEvent)
    (he : app.editing = true) (hks : ∀ k ∈ ks, is_buf_mutation k = true) :
    run_keys io app (ks ++ [⟨KeyCode.esc, KeyModifiers.none⟩]) =
      .ok ({ app with editor_buf := "", editing := false }, false) := by
  induction ks generalizing app with
  | nil =>
    rw [List.nil_append,
      run_keys_cons_ok io app _ [] _ (handle_key_edit_esc io app KeyModifiers.none he),
      if_neg (fun hf => Bool.noConfusion hf), run_keys_nil]
  | cons k rest ih =>
    obtain ⟨b, hb⟩ := handle_key_mutation io app k he (hks k (List.mem_cons_self k rest))
    rw [List.cons_append, run_keys_cons_ok io app k _ _ hb,
      if_neg (fun hf => Bool.noConfusion hf),
      ih { app with editor_buf := b } he (fun j hj => hks j (List.mem_cons_of_mem k hj))]

/-! ### Helper lemmas for the save path and clamping -/

theorem string_foldl_append (l : List String) (a : String) :
    List.foldl (fun r s => r ++ s) a l = a ++ List.foldl (fun r s => r ++ s) "" l := by
  induction l generalizing a with
  | nil => simp
  | cons x xs ih =>
    rw [List.foldl_cons, List.foldl_cons, ih (a ++ x), ih ("" ++ x), String.empty_append,
      String.append_assoc]

theorem string_join_cons (a : String) (l : List String) :
    String.join (a :: l) = a ++ String.join l := by
  unfold String.join
  rw [List.foldl_cons, string_foldl_append l ("" ++ a), String.empty_append]

theorem write_records_ok (io : IOOracle) (rows : List (List String)) (i : Nat)
    (hw : ∀ j, j < rows.length → io.writeOk (i + j) = true) :
    write_records io i rows = .ok (String.join (rows.map write_record)) := by
  induction rows generalizing i with
  | nil => rfl
  | cons row rest ih =>
    unfold write_records
    rw [if_pos (show io.writeOk i = true from hw 0 (Nat.succ_pos rest.length)),
      ih (i + 1) (fun j hj => by
        rw [show i + 1 + j = i + (j + 1) by omega]
        exact hw (j + 1) (Nat.succ_lt_succ hj)),
      List.map_cons, string_join_cons]

theorem write_records_error (io : IOOracle) (rows : List (List String)) (i : Nat) (e : SaveError)
    (h : write_records io i rows = .error e) :
    ∃ j, j < rows.length ∧ io.writeOk (i + j) = false := by
  induction rows generalizing i with
  | nil => simp [write_records] at h
  | cons row rest ih =>
    unfold write_records at h
    by_cases hw : io.writeOk i = true
    · rw [if_pos hw] at h
      cases hrec : write_records io (i + 1) rest with
      | ok s =>
        rw [hrec] at h
        cases h
      | error e2 =>
        rw [hrec] at h
        cases h
        obtain ⟨j, hj, hwj⟩ := ih (i + 1) hrec
        refine ⟨j + 1, Nat.succ_lt_succ hj, ?_⟩
        rw [show i + (j + 1) = i + 1 + j by omega]
        exact hwj
    · refine ⟨0, Nat.succ_pos rest.length, ?_⟩
      cases hwv : io.writeOk i with
      | false => exact hwv
      | true => exact absurd hwv hw

theorem nat_min_eq_right (a b : Nat) (h : b ≤ a) : Nat.min a b = b := by
  unfold Nat.min
  rw [Nat.min_eq_right h]
/-! ### The claims -/

/-- C1 counterexample: in the dirty navigating state of the spec's own quit
scenario, the quit key performs the save (writing `"aX,b\nc,d\n"`) and requests
exit, but the state it leaves behind still has `dirty = true` — the handler's
quit arm never clears the dirty flag, contradicting the claim that quit
"clears the dirty flag before the event loop terminates". -/
theorem quit_dirty_not_cleared_counterexample :
    handle_key ioAllOk appQ ⟨.char 'q', .none⟩ =
      .ok ⟨appQ, true, some "aX,b\nc,d\n"⟩ ∧ appQ.dirty = true := by
  constructor
  · decide
  · rfl

/-- C1 (amended): in navigating mode with the dirty flag set, the quit key
performs exactly the same save as the write key (writing the same content
`out` to the file) and requests termination, but — unlike the write key — it
leaves the state, including the still-set dirty flag, unchanged; with the
dirty flag clear, quit performs no save and terminates directly. -/
theorem quit_autosave (io : IOOracle) (app : App) (out : String)
    (he : app.editing = false) :
    (app.dirty = true → save_csv io app.data = .ok out →
      handle_key io app ⟨.char 'q', .none⟩ = .ok ⟨app, true, some out⟩ ∧
      handle_key io app ⟨.char 'w', .none⟩ =
        .ok ⟨{ app with dirty := false }, false, some out⟩) ∧
    (app.dirty = false →
      handle_key io app ⟨.char 'q', .none⟩ = .ok ⟨app, true, none⟩) := by
  constructor
  · intro hd hs
    constructor
    · rw [handle_key_nav_q io app KeyModifiers.none he, if_pos hd, hs]
    · rw [handle_key_nav_w io app KeyModifiers.none he, hs]
  · intro hd
    rw [handle_key_nav_q io app KeyModifiers.none he,
      if_neg (by rw [hd]; exact fun hf => Bool.noConfusion hf)]

/-- C1 witness at the concrete quit-scenario state. -/
theorem quit_autosave_witness :
    handle_key ioAllOk appQ ⟨.char 'q', .none⟩ = .ok ⟨appQ, true, some "aX,b\nc,d\n"⟩ ∧
    handle_key ioAllOk appQ ⟨.char 'w', .none⟩ =
      .ok ⟨{ appQ with dirty := false }, false, some "aX,b\nc,d\n"⟩ :=
  (quit_autosave ioAllOk appQ "aX,b\nc,d\n" rfl).1 rfl (by decide)

/-- C2 counterexample: with the cursor addressing row 1 of a one-row grid,
pressing the edit key and immediately cancelling leaves the grid with an
extra (empty) row — the growth performed on edit entry persists after
cancel, so the grid is not "exactly equal" to its value before the edit key
for every cursor position. -/
theorem edit_cancel_counterexample :
    run_keys ioAllOk appCE [⟨.char 'e', .none⟩, ⟨.esc, .none⟩] =
      .ok ({ appCE with data := [["a"], [""]] }, false) ∧
    [["a"], [""]] ≠ appCE.data := by
  constructor
  · decide
  · decide

/-- C2 (amended): entering edit mode, applying any sequence of buffer
mutations (characters and backspaces), then cancelling restores the dirty
flag, cursor, mode and buffer exactly; the grid equals the grid produced by
edit-entry's `ensure_cell_exists` growth — hence it is exactly the original
grid whenever the cursor addressed a cell within the current extent. -/
theorem edit_cancel (io : IOOracle) (app : App) (ks : List KeyEvent)
    (he : app.editing = false) (hks : ∀ k ∈ ks, is_buf_mutation k = true) :
    run_keys io app (⟨.char 'e', .none⟩ :: (ks ++ [⟨.esc, .none⟩])) =
      .ok ({ ensure_cell_exists app app.row app.col with
              editor_buf := "", editing := false }, false) ∧
    (ensure_cell_exists app app.row app.col).dirty = app.dirty ∧
    (ensure_cell_exists app app.row app.col).row = app.row ∧
    (ensure_cell_exists app app.row app.col).col = app.col ∧
    (ensure_cell_exists app app.row app.col).editor_buf = app.editor_buf ∧
    (app.row < app.data.length → app.col < (app.data.getD app.row []).length →
      (ensure_cell_exists app app.row app.col).data = app.data) := by
  refine ⟨?_, rfl, rfl, rfl, rfl, ensure_data_of_lt app app.row app.col⟩
  rw [run_keys_cons_ok io app _ _ _ (handle_key_nav_e io app KeyModifiers.none he),
    if_neg (fun hf => Bool.noConfusion hf),
    run_keys_mutations_esc io _ ks rfl hks]

/-- C2 witness: a concrete edit session (type a character, delete it, cancel)
over a 2x2 grid with the cursor on an existing cell. -/
theorem edit_cancel_witness :
    run_keys ioAllOk (initApp [["a", "b"], ["c", "d"]])
        [⟨.char 'e', .none⟩, ⟨.char 'X', .none⟩, ⟨.backspace, .none⟩, ⟨.esc, .none⟩] =
      .ok ({ ensure_cell_exists (initApp [["a", "b"], ["c", "d"]]) 0 0 with
              editor_buf := "", editing := false }, false) ∧
    (ensure_cell_exists (initApp [["a", "b"], ["c", "d"]]) 0 0).data =
      [["a", "b"], ["c", "d"]] :=
  ⟨(edit_cancel ioAllOk (initApp [["a", "b"], ["c", "d"]])
      [⟨.char 'X', .none⟩, ⟨.backspace, .none⟩] rfl (by decide)).1,
    (edit_cancel ioAllOk (initApp [["a", "b"], ["c", "d"]])
      [⟨.char 'X', .none⟩, ⟨.backspace, .none⟩] rfl (by decide)).2.2.2.2.2
      (by decide) (by decide)⟩

/-- C3: `save_csv` emits the rows in order, each row's cells in order as
comma-separated fields with no padding (rows written as-is, so a jagged grid
introduces no error by itself), followed by the flush; it fails exactly when
one of the underlying I/O operations (create, a record write, flush) fails. -/
theorem save_csv_spec (io : IOOracle) (data : List (List String)) :
    (io.createOk = true → (∀ i, i < data.length → io.writeOk i = true) →
      io.flushOk = true →
      save_csv io data = .ok (String.join (data.map write_record))) ∧
    (∀ e, save_csv io data = .error e →
      io.createOk = false ∨ (∃ i, i < data.length ∧ io.writeOk i = false) ∨
        io.flushOk = false) := by
  constructor
  · intro hc hw hf
    have hrec := write_records_ok io data 0 (fun j hj => by
      rw [Nat.zero_add]
      exact hw j hj)
    unfold save_csv
    rw [if_pos hc, hrec]
    exact if_pos hf
  · intro e h
    unfold save_csv at h
    by_cases hc : io.createOk = true
    · rw [if_pos hc] at h
      cases hrec : write_records io 0 data with
      | ok s =>
        rw [hrec] at h
        have h2 : (if io.flushOk = true then (Except.ok s : Except SaveError String)
            else .error .flushFailed) = .error e := h
        by_cases hf : io.flushOk = true
        · rw [if_pos hf] at h2
          cases h2
        · cases hfv : io.flushOk with
          | false => exact Or.inr (Or.inr rfl)
          | true => exact absurd hfv hf
      | error e2 =>
        obtain ⟨j, hj, hwj⟩ := write_records_error io data 0 e2 hrec
        rw [Nat.zero_add] at hwj
        exact Or.inr (Or.inl ⟨j, hj, hwj⟩)
    · cases hcv : io.createOk with
      | false => exact Or.inl rfl
      | true => exact absurd hcv hc

/-- C3 witness: the jagged grid with row lengths 3, 1, 0 saves without error
under succeeding I/O, producing its rows as-is in order. -/
theorem save_csv_spec_witness :
    save_csv ioAllOk dJagged = .ok "a,b,c\nd\n\n" := by
  have h := (save_csv_spec ioAllOk dJagged).1 rfl (fun i hi => rfl) rfl
  rw [h]
  decide

/-- C4: the edit key seeds the buffer with exactly the current content of the
cursor cell (after ensuring it exists — which never changes any cell's
content), and Enter commits the exact buffer into exactly the cursor cell,
sets the dirty flag, returns to navigating mode with an empty buffer, leaves
the cursor in place and every other cell unchanged. -/
theorem edit_seed_commit (io : IOOracle) (app : App) :
    (app.editing = false →
      handle_key io app ⟨.char 'e', .none⟩ =
        .ok ⟨{ ensure_cell_exists app app.row app.col with
                editor_buf := getCell app.data app.row app.col,
                editing := true }, false, none⟩) ∧
    (app.editing = true →
      ∃ app2, handle_key io app ⟨.enter, .none⟩ = .ok ⟨app2, false, none⟩ ∧
        getCell app2.data app.row app.col = app.editor_buf ∧
        app2.dirty = true ∧ app2.editing = false ∧ app2.editor_buf = "" ∧
        app2.row = app.row ∧ app2.col = app.col ∧
        ∀ r c, ¬(r = app.row ∧ c = app.col) →
          getCell app2.data r c = getCell app.data r c) := by
  constructor
  · intro he
    rw [handle_key_nav_e io app KeyModifiers.none he,
      ensure_getCell app app.row app.col app.row app.col]
  · intro he
    rw [handle_key_edit_enter io app KeyModifiers.none he]
    refine ⟨_, rfl, ?_, rfl, rfl, rfl, rfl, rfl, ?_⟩
    · unfold getCell
      rw [listGetD_set_self _ _ _ _ (ensure_r_lt app app.row app.col),
        listGetD_set_self _ _ _ _ (ensure_c_lt app app.row app.col)]
    · intro r c hrc
      unfold getCell
      by_cases hr : r = app.row
      · subst hr
        have hc : c ≠ app.col := fun hcc => hrc ⟨rfl, hcc⟩
        rw [listGetD_set_self _ _ _ _ (ensure_r_lt app app.row app.col),
          listGetD_set_ne _ _ _ _ _ (fun hh => hc hh.symm)]
        exact ensure_getCell app app.row app.col app.row c
      · rw [listGetD_set_ne _ _ _ _ _ (fun hh => hr hh.symm)]
        exact ensure_getCell app app.row app.col r c

/-- C4 witness: seeding at (0,0) of a 2x2 grid yields buffer `"a"`, and a
commit from the seeded-then-extended state writes the buffer into (0,0),
leaving (0,1) and (1,0) untouched. -/
theorem edit_seed_commit_witness :
    handle_key ioAllOk (initApp [["a", "b"], ["c", "d"]]) ⟨.char 'e', .none⟩ =
      .ok ⟨{ ensure_cell_exists (initApp [["a", "b"], ["c", "d"]]) 0 0 with
              editor_buf := getCell [["a", "b"], ["c", "d"]] 0 0,
              editing := true }, false, none⟩ ∧
    (∃ app2, handle_key ioAllOk
        { data := [["a", "b"], ["c", "d"]], row := 0, col := 0,
          editing := true, editor_buf := "aX", dirty := false } ⟨.enter, .none⟩ =
          .ok ⟨app2, false, none⟩ ∧
      getCell app2.data 0 0 = "aX" ∧ app2.dirty = true ∧ app2.editing = false ∧
      app2.editor_buf = "" ∧ app2.row = 0 ∧ app2.col = 0 ∧
      ∀ r c, ¬(r = 0 ∧ c = 0) → getCell app2.data r c =
        getCell [["a", "b"], ["c", "d"]] r c) :=
  ⟨(edit_seed_commit ioAllOk (initApp [["a", "b"], ["c", "d"]])).1 rfl,
    (edit_seed_commit ioAllOk
      { data := [["a", "b"], ["c", "d"]], row := 0, col := 0,
        editing := true, editor_buf := "aX", dirty := false }).2 rfl⟩

/-- C5: navigating-mode clamping: left at column 0 and up at row 0 are
no-ops; right when `col + 1 = width()` and down when `row + 1 = height()` are
no-ops; a vertical move onto a row no longer than the current column clamps
the column to that row's last index, and onto a zero-length row clamps the
column to 0 (no underflow, no error). -/
theorem nav_clamp (io : IOOracle) (app : App) (he : app.editing = false) :
    (app.col = 0 → handle_key io app ⟨.left, .none⟩ = .ok ⟨app, false, none⟩) ∧
    (app.row = 0 → handle_key io app ⟨.up, .none⟩ = .ok ⟨app, false, none⟩) ∧
    (app.col + 1 = max_cols app.data →
      handle_key io app ⟨.right, .none⟩ = .ok ⟨app, false, none⟩) ∧
    (app.row + 1 = app.data.length →
      handle_key io app ⟨.down, .none⟩ = .ok ⟨app, false, none⟩) ∧
    (0 < app.row → (app.data.getD (app.row - 1) []).length ≤ app.col →
      handle_key io app ⟨.up, .none⟩ =
        .ok ⟨{ app with
                row := app.row - 1,
                col := (app.data.getD (app.row - 1) []).length - 1 }, false, none⟩) ∧
    (app.row + 1 < app.data.length → (app.data.getD (app.row + 1) []).length ≤ app.col →
      handle_key io app ⟨.down, .none⟩ =
        .ok ⟨{ app with
                row := app.row + 1,
                col := (app.data.getD (app.row + 1) []).length - 1 }, false, none⟩) ∧
    (0 < app.row → (app.data.getD (app.row - 1) []).length = 0 →
      handle_key io app ⟨.up, .none⟩ =
        .ok ⟨{ app with row := app.row - 1, col := 0 }, false, none⟩) := by
  refine ⟨?_, ?_, ?_, ?_, ?_, ?_, ?_⟩
  · intro h0
    rw [handle_key_nav_left io app KeyModifiers.none he, if_neg (by omega)]
  · intro h0
    rw [handle_key_nav_up io app KeyModifiers.none he, if_neg (by omega)]
  · intro h0
    rw [handle_key_nav_right io app KeyModifiers.none he, if_neg (by omega)]
  · intro h0
    rw [handle_key_nav_down io app KeyModifiers.none he, if_neg (by omega)]
  · intro h0 hlen
    rw [handle_key_nav_up io app KeyModifiers.none he, if_pos h0,
      nat_min_eq_right _ _ (by omega)]
  · intro h0 hlen
    rw [handle_key_nav_down io app KeyModifiers.none he, if_pos h0,
      nat_min_eq_right _ _ (by omega)]
  · intro h0 hlen
    rw [handle_key_nav_up io app KeyModifiers.none he, if_pos h0, hlen,
      show (0 : Nat) - 1 = 0 from rfl, nat_min_eq_right _ _ (Nat.zero_le _)]

/-- C5 witness: each clamping conjunct at a concrete navigating state. -/
theorem nav_clamp_witness :
    handle_key ioAllOk appCE ⟨.left, .none⟩ = .ok ⟨appCE, false, none⟩ ∧
    handle_key ioAllOk appNav1 ⟨.up, .none⟩ = .ok ⟨appNav1, false, none⟩ ∧
    handle_key ioAllOk appNav1 ⟨.right, .none⟩ = .ok ⟨appNav1, false, none⟩ ∧
    handle_key ioAllOk appNav2 ⟨.down, .none⟩ = .ok ⟨appNav2, false, none⟩ ∧
    handle_key ioAllOk appNav1 ⟨.down, .none⟩ =
      .ok ⟨{ appNav1 with row := 1, col := 0 }, false, none⟩ ∧
    handle_key ioAllOk appNav3 ⟨.up, .none⟩ =
      .ok ⟨{ appNav3 with row := 0, col := 0 }, false, none⟩ :=
  ⟨(nav_clamp ioAllOk appCE rfl).1 rfl,
    (nav_clamp ioAllOk appNav1 rfl).2.1 rfl,
    (nav_clamp ioAllOk appNav1 rfl).2.2.1 (by decide),
    (nav_clamp ioAllOk appNav2 rfl).2.2.2.1 (by decide),
    (nav_clamp ioAllOk appNav1 rfl).2.2.2.2.2.1 (by decide) (by decide),
    (nav_clamp ioAllOk appNav3 rfl).2.2.2.2.2.2 (by decide) (by decide)⟩

/-- C6: starting from the initial state (cursor (0,0), navigating) every
state reached by a successful run of key events satisfies the cursor bounds
`row < max(1, height())` and `col < max(1, width())`, and every successful
key-handling step preserves these bounds. -/
theorem cursor_bounds (io : IOOracle) (data : List (List String)) (ks : List KeyEvent)
    (app' : App) (ex : Bool)
    (h : run_keys io (initApp data) ks = .ok (app', ex)) :
    cursorInv app' ∧
    ∀ io2 app2 k res, cursorInv app2 → handle_key io2 app2 k = .ok res →
      cursorInv res.app := by
  refine ⟨?_, fun io2 app2 k res hP hh => handle_key_cursorInv io2 app2 k res hP hh⟩
  refine run_keys_preserves cursorInv handle_key_cursorInv io ks (initApp data) app' ex ?_ h
  constructor
  · rw [lt_max_one_iff]
    exact Or.inl rfl
  · rw [lt_max_one_iff]
    exact Or.inl rfl

/-- C6 witness: a concrete run over a jagged grid (down then right) lands in
a state satisfying the cursor bounds. -/
theorem cursor_bounds_witness :
    cursorInv { data := [["a", "b"], ["c"]], row := 1, col := 1,
                editing := false, editor_buf := "", dirty := false } :=
  (cursor_bounds ioAllOk [["a", "b"], ["c"]] [⟨.down, .none⟩, ⟨.right, .none⟩]
    { data := [["a", "b"], ["c"]], row := 1, col := 1,
      editing := false, editor_buf := "", dirty := false } false (by decide)).1

/-- C7: `ensure_cell_exists` makes (r, c) addressable by appending empty rows
(when `r` is past the last row) and appending empty cells to row `r` (when
`c` is past its last cell); rows other than `r` are untouched, row `r` keeps
its existing cells as a prefix, and every cell read (with the empty-string
default) is unchanged — so every previously existing cell keeps its exact
content and position. -/
theorem ensure_grow_frame (app : App) (r c : Nat) :
    (r < (ensure_cell_exists app r c).data.length ∧
      c < ((ensure_cell_exists app r c).data.getD r []).length) ∧
    (ensure_cell_exists app r c).data.length =
      (if app.data.length ≤ r then r + 1 else app.data.length) ∧
    (∀ i, i ≠ r → (ensure_cell_exists app r c).data.getD i [] = app.data.getD i []) ∧
    (ensure_cell_exists app r c).data.getD r [] =
      (if (app.data.getD r []).length ≤ c then
        app.data.getD r [] ++ List.replicate (c + 1 - (app.data.getD r []).length) ""
      else app.data.getD r []) ∧
    (∀ i j, getCell (ensure_cell_exists app r c).data i j = getCell app.data i j) :=
  ⟨⟨ensure_r_lt app r c, ensure_c_lt app r c⟩, ensure_length app r c,
    fun i hi => ensure_getD_ne app r c i hi, ensure_getD_self app r c,
    fun i j => ensure_getCell app r c i j⟩

/-- C7 witness: growing the one-row grid to make (2,1) addressable leaves
row 0 untouched and cell (0,0) readable as before. -/
theorem ensure_grow_frame_witness :
    (2 < (ensure_cell_exists appCE 2 1).data.length ∧
      1 < ((ensure_cell_exists appCE 2 1).data.getD 2 []).length) ∧
    (ensure_cell_exists appCE 2 1).data.getD 0 [] = appCE.data.getD 0 [] ∧
    getCell (ensure_cell_exists appCE 2 1).data 0 0 = getCell appCE.data 0 0 :=
  ⟨(ensure_grow_frame appCE 2 1).1,
    (ensure_grow_frame appCE 2 1).2.2.1 0 (by decide),
    (ensure_grow_frame appCE 2 1).2.2.2.2 0 0⟩

/-- C8: when the save performed by the write key or by auto-save-on-quit
fails, the error is propagated out of the key handler and out of the event
loop, carrying the state as it was: the dirty flag is not cleared and the
grid, cursor, mode and buffer are exactly the pre-save state. -/
theorem save_failure_propagates (io : IOOracle) (app : App) (e : SaveError)
    (he : app.editing = false) (hs : save_csv io app.data = .error e) :
    handle_key io app ⟨.char 'w', .none⟩ = .error (e, app) ∧
    (app.dirty = true → handle_key io app ⟨.char 'q', .none⟩ = .error (e, app)) ∧
    (∀ ks, run_keys io app (⟨.char 'w', .none⟩ :: ks) = .error (e, app)) := by
  have hw : handle_key io app ⟨.char 'w', .none⟩ = .error (e, app) := by
    rw [handle_key_nav_w io app KeyModifiers.none he, hs]
  refine ⟨hw, ?_, fun ks => run_keys_cons_error io app _ ks _ hw⟩
  intro hd
  rw [handle_key_nav_q io app KeyModifiers.none he, if_pos hd, hs]

/-- C8 witness: with file creation failing, both the write key and the
dirty-quit propagate the create error with the dirty state intact. -/
theorem save_failure_propagates_witness :
    handle_key ioNoCreate appQ ⟨.char 'w', .none⟩ =
      .error (SaveError.createFailed, appQ) ∧
    handle_key ioNoCreate appQ ⟨.char 'q', .none⟩ =
      .error (SaveError.createFailed, appQ) ∧
    appQ.dirty = true :=
  ⟨(save_failure_propagates ioNoCreate appQ SaveError.createFailed rfl (by decide)).1,
    (save_failure_propagates ioNoCreate appQ SaveError.createFailed rfl (by decide)).2.1 rfl,
    rfl⟩

/-- C10: in every state reached by a successful run from the initial state,
the edit buffer is empty whenever the application is not in editing mode; the
initial buffer is empty, both commit (Enter) and cancel (Escape) clear the
buffer when leaving editing mode, and every successful key-handling step
preserves the invariant. -/
theorem buffer_empty_outside_editing (io : IOOracle) (data : List (List String))
    (ks : List KeyEvent) (app' : App) (ex : Bool)
    (h : run_keys io (initApp data) ks = .ok (app', ex)) :
    bufInv app' ∧ (initApp data).editor_buf = "" ∧
    (∀ app2 m, app2.editing = true →
      (∃ res, handle_key io app2 ⟨.enter, m⟩ = .ok res ∧
        res.app.editor_buf = "" ∧ res.app.editing = false) ∧
      (∃ res, handle_key io app2 ⟨.esc, m⟩ = .ok res ∧
        res.app.editor_buf = "" ∧ res.app.editing = false)) ∧
    (∀ io2 app2 k res, bufInv app2 → handle_key io2 app2 k = .ok res →
      bufInv res.app) := by
  refine ⟨?_, rfl, ?_, fun io2 app2 k res hP hh => handle_key_bufInv io2 app2 k res hP hh⟩
  · exact run_keys_preserves bufInv handle_key_bufInv io ks (initApp data) app' ex
      (fun _ => rfl) h
  · intro app2 m he2
    exact ⟨⟨_, handle_key_edit_enter io app2 m he2, rfl, rfl⟩,
      ⟨_, handle_key_edit_esc io app2 m he2, rfl, rfl⟩⟩

/-- C10 witness: after a concrete session (edit, type, commit) the reached
navigating state has an empty buffer. -/
theorem buffer_empty_outside_editing_witness :
    bufInv { data := [["aX", "b"]], row := 0, col := 0,
             editing := false, editor_buf := "", dirty := true } :=
  (buffer_empty_outside_editing ioAllOk [["a", "b"]]
    [⟨.char 'e', .none⟩, ⟨.char 'X', .none⟩, ⟨.enter, .none⟩]
    { data := [["aX", "b"]], row := 0, col := 0,
      editing := false, editor_buf := "", dirty := true } false (by decide)).1
